import Mathlib

/-!
Verification of the RPC dispatch contract layer
(`packages/core/src/common/rpc/rpc-server.ts`).

The source is mostly type-level TypeScript: a mapped type `RpcServer<T>`
turning a service interface into the server shape the transport dispatches
into, helper conditional types `EnsurePrefix` and `WithoutCancellationToken`,
the runtime guard `RpcEvent.is`, the key constructor `RpcContextKey`, and the
two registered symbols `kOnSendAll` / `kOnSendTo`.

We shallowly embed the relevant fragment of the TypeScript type language as
an inductive `Ty`, interfaces as association lists of (member key, type), and
JavaScript runtime values as an inductive `JSValue`.
-/

/-- A JavaScript symbol: either obtained from the global registry via
`Symbol.for(key)` (equal whenever the registry key is equal) or a unique
symbol `Symbol(description)` (identity given by a distinct allocation id). -/
inductive JSSymbol where
  | registered (key : String)
  | unique (id : Nat) (description : String)
deriving DecidableEq, Repr

/-- `Symbol.for(key)`: look up / create the symbol for `key` in the global
symbol registry. Two evaluations with the same key yield the same symbol. -/
def symbolFor (key : String) : JSSymbol :=
  JSSymbol.registered key

/-- A property / member key: a string or a symbol (number keys do not occur
in the fragment under study). -/
inductive Key where
  | str (s : String)
  | sym (s : JSSymbol)
deriving DecidableEq, Repr

/-- `export const kOnSendAll = Symbol.for('onSendAll')` as a member key. -/
def kOnSendAll : Key := Key.sym (symbolFor "onSendAll")

/-- `export const kOnSendTo = Symbol.for('onSendTo')` as a member key. -/
def kOnSendTo : Key := Key.sym (symbolFor "onSendTo")

/-- The fragment of the TypeScript type language the RPC contract uses:
primitive types, `CancellationToken`, `RpcContext`, `PromiseLike<T>`,
`Event<U>`, `RpcEvent<U>`, function types, and binary unions. -/
inductive Ty where
  | str
  | num
  | boolean
  | undef
  | voidTy
  | cancellationToken
  | rpcContext
  | promiseLike (t : Ty)
  | event (u : Ty)
  | rpcEvent (u : Ty)
  | func (params : List Ty) (ret : Ty)
  | union (a b : Ty)
deriving Repr

/-- Modelled from the spec: `MaybePromise` is imported from `../types`, which
is not part of the sources here. Per the spec's round-trip property, a server
member declared to produce `W` asynchronously may also return a synchronous
`W` ("synchronously-returning-then-wrapped equivalent"), i.e.
`MaybePromise<T> = T | PromiseLike<T>`. -/
def MaybePromise (t : Ty) : Ty :=
  Ty.union t (Ty.promiseLike t)

/-- `T extends `${P}${string}``: does the string start with the given
prefix string? Modelled on the underlying character lists. -/
def strStartsWith (p s : String) : Bool :=
  p.data.isPrefixOf s.data

/-- `type EnsurePrefix<P, T> = T extends `${P}${string}` ? T : T extends
string ? `${P}${T}` : never;` — `none` stands for `never` (the member key is
dropped from the mapped type). -/
def EnsurePrefix (p : String) (k : Key) : Option Key :=
  match k with
  | Key.str s => some (Key.str (if strStartsWith p s then s else p ++ s))
  | Key.sym _ => none

/-- `type WithoutCancellationToken<T> = T extends [...infer U,
CancellationToken?] ? U : T;` — drops a trailing `CancellationToken`
parameter when present, leaves the tuple unchanged otherwise. -/
def WithoutCancellationToken : List Ty → List Ty
  | [] => []
  | [t] =>
      match t with
      | Ty.cancellationToken => []
      | t => [t]
  | t :: u :: rest => t :: WithoutCancellationToken (u :: rest)

/-- The return-type normalization in `RpcServer`:
`V extends PromiseLike<infer W> ? MaybePromise<W> : V`. -/
def rpcReturn (v : Ty) : Ty :=
  match v with
  | Ty.promiseLike w => MaybePromise w
  | v => v

/-- The value part of the `RpcServer` mapped type for one member:
`T[K] extends Event<infer U> ? RpcEvent<U> :
 T[K] extends (...params: infer U) => infer V ?
   ((ctx: RpcContext, ...params: WithoutCancellationToken<U>) =>
     (V extends PromiseLike<infer W> ? MaybePromise<W> : V)) :
 undefined`. -/
def rpcServerMemberTy (t : Ty) : Ty :=
  match t with
  | Ty.event u => Ty.rpcEvent u
  | Ty.func params v =>
      Ty.func (Ty.rpcContext :: WithoutCancellationToken params) (rpcReturn v)
  | _ => Ty.undef

/-- A service interface: an association list of member keys and their
declared types. -/
abbrev Interface : Type := List (Key × Ty)

/-- Does the type match `PromiseLike<infer W>`? -/
def Ty.isPromiseLike : Ty → Bool
  | Ty.promiseLike _ => true
  | _ => false

/-- Does the type match `Event<infer U>`? -/
def Ty.isEventTy : Ty → Bool
  | Ty.event _ => true
  | _ => false

/-- Does the type match `(...params) => ret`? -/
def Ty.isFuncTy : Ty → Bool
  | Ty.func _ _ => true
  | _ => false

/-- The mapped type
`type RpcServer<T> = { [K in keyof T as EnsurePrefix<'$', K>]-?: ... }`:
every member key is remapped through `EnsurePrefix<'$', _>` (keys mapped to
`never` disappear), and every member type through `rpcServerMemberTy`. -/
def RpcServer (T : Interface) : Interface :=
  T.filterMap (fun m =>
    ( EnsurePrefix "$" m.1).map (fun k => (k, rpcServerMemberTy m.2)))

example : RpcServer [(Key.str "foo", Ty.func [Ty.str] (Ty.promiseLike Ty.num))] =
    [(Key.str "$foo",
      Ty.func [Ty.rpcContext, Ty.str] (MaybePromise Ty.num))] := rfl

example : RpcServer [(Key.str "onFoo", Ty.event Ty.num)] =
    [(Key.str "$onFoo", Ty.rpcEvent Ty.num)] := rfl

example : RpcServer [(Key.str "x", Ty.num)] =
    [(Key.str "$x", Ty.undef)] := rfl

example : RpcServer [(Key.str "$bar", Ty.func [Ty.num, Ty.cancellationToken] Ty.voidTy)] =
    [(Key.str "$bar", Ty.func [Ty.rpcContext, Ty.num] Ty.voidTy)] := rfl

/-! ## Runtime values

`RpcEvent.is` is a runtime guard over arbitrary JavaScript values, so we
embed the value universe it inspects: `null`, `undefined`, primitives,
functions (identified by an allocation id; their bodies are irrelevant to
the guard) and plain objects given by their own properties. -/

/-- A JavaScript runtime value, as far as the guard code inspects it. -/
inductive JSValue where
  | null
  | undefined
  | boolean (b : Bool)
  | number (n : Int)
  | string (s : String)
  | function (id : Nat)
  | object (props : List (Key × JSValue))

/-- Property lookup in an object's property list; a missing property reads
as `undefined`, as in JavaScript. -/
def lookupProp : List (Key × JSValue) → Key → JSValue
  | [], _ => JSValue.undefined
  | (k', v) :: rest, k => if k' = k then v else lookupProp rest k

/-- `value[k]`: property access. Non-objects have no own properties in the
fragment the guard exercises; reading yields `undefined`. -/
def JSValue.getProp : JSValue → Key → JSValue
  | JSValue.object props, k => lookupProp props k
  | _, _ => JSValue.undefined

/-- Modelled from the spec: `isFunction` is imported from `../types` (not in
the sources). It is the `typeof value === 'function'` test: true exactly on
function values. -/
def isFunction : JSValue → Bool
  | JSValue.function _ => true
  | _ => false

/-- Modelled from the spec: `isObject` is imported from `../types` (not in
the sources). Per the spec, the guard is false for `null` and for a plain
function, so `isObject` is the "non-null object, not a function" test. -/
def isObject : JSValue → Bool
  | JSValue.object _ => true
  | _ => false

/-- `RpcEvent.is(value)`:
`isObject(value) && isFunction(value[kOnSendAll]) &&
 isFunction(value[kOnSendTo]) && isFunction(value.sendAll) &&
 isFunction(value.sendTo)`. -/
def RpcEvent.is (value : JSValue) : Bool :=
  isObject value
    && isFunction (value.getProp kOnSendAll)
    && isFunction (value.getProp kOnSendTo)
    && isFunction (value.getProp (Key.str "sendAll"))
    && isFunction (value.getProp (Key.str "sendTo"))

/-- `function RpcContextKey<T>(key) { return key as RpcContextKey<T>; }` —
at runtime the constructor returns its argument unchanged (the `T` tag is
type-level only). -/
def RpcContextKey (key : Key) : Key := key

/-- The error `require` fails with when the key has no populated value; it
carries (names) the missing key. -/
inductive RpcError where
  | missingContextValue (key : Key)
deriving DecidableEq

/-- Modelled from the spec: `RpcContext` is only an interface in the
sources; the concrete per-call context built by the transport is external.
Per the spec it carries the opaque `sender`, the optional cancellation
`request`, and a keyed metadata mapping populated before dispatch and
immutable afterwards. -/
structure RpcContextModel where
  sender : JSValue
  request : Option JSValue
  values : List (Key × JSValue)

/-- Keyed-metadata lookup: `none` when the key was never populated. -/
def ctxLookup : List (Key × JSValue) → Key → Option JSValue
  | [], _ => none
  | (k', v) :: rest, k => if k' = k then some v else ctxLookup rest k

/-- Modelled from the spec: `get` looks the key up in the per-call mapping
and returns `undefined` (here `none`) when absent; it is a total function,
hence never throws. -/
def RpcContextModel.get (ctx : RpcContextModel) (key : Key) : Option JSValue :=
  ctxLookup ctx.values key

/-- Modelled from the spec: `require` performs the same lookup but fails
with `MissingContextValue`, naming the key, when no value is present. -/
def RpcContextModel.require (ctx : RpcContextModel) (key : Key) :
    Except RpcError JSValue :=
  match ctx.get key with
  | some v => Except.ok v
  | none => Except.error (RpcError.missingContextValue key)

/-- Payload of an `onSendAll` notification: `{ value: T, exceptions?: unknown[] }`. -/
structure SendAllEvent (T : Type) where
  value : T
  exceptions : Option (List JSValue)

/-- Payload of an `onSendTo` notification: `{ value: T, targets: unknown[] }`. -/
structure SendToEvent (T : Type) where
  value : T
  targets : List JSValue

/-- Modelled from the spec: `RpcEvent` is abstract in the sources (the
concrete emitter-backed implementation lives outside the fragment). We
model an instance by the ordered logs of notifications already raised on
its two observation channels; a publish operation returns the state after
the notifications it raised, so everything in the returned logs happened
before the call returned. -/
structure RpcEventModel (T : Type) where
  onSendAllLog : List (SendAllEvent T)
  onSendToLog : List (SendToEvent T)

/-- Modelled from the spec: `sendAll(event, exceptions?)` raises one
`onSendAll` notification carrying `{value: event, exceptions}`. -/
def RpcEventModel.sendAll {T : Type} (e : RpcEventModel T) (event : T)
    (exceptions : Option (List JSValue)) : RpcEventModel T :=
  ⟨e.onSendAllLog ++ [⟨event, exceptions⟩], e.onSendToLog⟩

/-- Modelled from the spec: `sendTo(event, targets)` raises one `onSendTo`
notification carrying `{value: event, targets}`. -/
def RpcEventModel.sendTo {T : Type} (e : RpcEventModel T) (event : T)
    (targets : List JSValue) : RpcEventModel T :=
  ⟨e.onSendAllLog, e.onSendToLog ++ [⟨event, targets⟩]⟩

/-! ## Helper lemmas -/

theorem strStartsWith_append (p s : String) : strStartsWith p (p ++ s) = true := by
  unfold strStartsWith
  rw [String.data_append]
  exact List.isPrefixOf_iff_prefix.mpr (List.prefix_append _ _)

theorem mem_rpcServer_of_mem {T : Interface} {k k' : Key} {t : Ty}
    (hmem : (k, t) ∈ T) (hk : EnsurePrefix "$" k = some k') :
    (k', rpcServerMemberTy t) ∈ RpcServer T := by
  unfold RpcServer
  exact List.mem_filterMap.mpr ⟨(k, t), hmem, by simp [hk]⟩

theorem ensurePrefix_shape {k k' : Key} (h : EnsurePrefix "$" k = some k') :
    ∃ s, k' = Key.str s ∧ strStartsWith "$" s = true := by
  cases k with
  | sym s0 => exact absurd h (by simp [ EnsurePrefix])
  | str s0 =>
    simp only [ EnsurePrefix, Option.some.injEq] at h
    cases hs : strStartsWith "$" s0 with
    | false =>
      refine ⟨"$" ++ s0, ?_, strStartsWith_append "$" s0⟩
      rw [← h]
      simp [hs]
    | true =>
      refine ⟨s0, ?_, hs⟩
      rw [← h]
      simp [hs]

theorem wct_append_single : ∀ (init : List Ty) (b : Ty),
    WithoutCancellationToken (init ++ [b]) =
      init ++ WithoutCancellationToken [b]
  | [], b => by simp
  | [t], b => rfl
  | t :: u :: rest, b => by
      have ih := wct_append_single (u :: rest) b
      simp only [List.cons_append] at ih ⊢
      rw [show WithoutCancellationToken (t :: u :: (rest ++ [b])) =
            t :: WithoutCancellationToken (u :: (rest ++ [b])) from rfl, ih]

theorem wct_append_ct (init : List Ty) :
    WithoutCancellationToken (init ++ [Ty.cancellationToken]) = init := by
  rw [wct_append_single]
  simp [show WithoutCancellationToken [Ty.cancellationToken] = [] from rfl]

theorem wct_append_ne (init : List Ty) (b : Ty) (h : b ≠ Ty.cancellationToken) :
    WithoutCancellationToken (init ++ [b]) = init ++ [b] := by
  rw [wct_append_single]
  congr 1
  cases b
  all_goals first | rfl | exact absurd rfl h

theorem wct_dropLast_of_trailing (ts : List Ty)
    (h : ts.getLast? = some Ty.cancellationToken) :
    WithoutCancellationToken ts = ts.dropLast := by
  rcases List.eq_nil_or_concat ts with rfl | ⟨init, b, rfl⟩
  · simp at h
  · simp only [List.concat_eq_append] at h ⊢
    have hb : b = Ty.cancellationToken := by simpa using h
    subst hb
    rw [wct_append_ct]
    simp

theorem wct_id_of_no_trailing (ts : List Ty)
    (h : ts.getLast? ≠ some Ty.cancellationToken) :
    WithoutCancellationToken ts = ts := by
  rcases List.eq_nil_or_concat ts with rfl | ⟨init, b, rfl⟩
  · rfl
  · simp only [List.concat_eq_append] at h ⊢
    refine wct_append_ne init b fun hb => ?_
    subst hb
    exact h (by simp)

theorem ctxLookup_eq_none (vs : List (Key × JSValue)) (k : Key)
    (h : k ∉ vs.map Prod.fst) : ctxLookup vs k = none := by
  induction vs with
  | nil => rfl
  | cons p rest ih =>
    obtain ⟨k', v⟩ := p
    simp only [List.map_cons, List.mem_cons] at h
    push_neg at h
    obtain ⟨h1, h2⟩ := h
    simp only [ctxLookup]
    rw [if_neg fun he => h1 he.symm]
    exact ih h2

/-! ## Claim theorems: the server contract transformer -/

/-- C1 counterexample: for the interface `{ foo(): number }` — a synchronous
method, `number` is not an awaitable — the server member is
`$foo(ctx) => number`: its return type stays `number` and is not an
awaitable wrapping `number` (it is neither `PromiseLike<number>` nor
`MaybePromise<number>`), contradicting "synchronous service methods become
awaitable-returning server methods". -/
theorem rpcServer_sync_return_unwrapped_cex :
    RpcServer [(Key.str "foo", Ty.func [] Ty.num)] =
      [(Key.str "$foo", Ty.func [Ty.rpcContext] Ty.num)]
    ∧ Ty.num ≠ Ty.promiseLike Ty.num
    ∧ Ty.num ≠ MaybePromise Ty.num :=
  ⟨rfl, fun h => Ty.noConfusion h, fun h => Ty.noConfusion h⟩

/-- C1 (amended): for a function-typed member `(...params) => V` the server
member returns `rpcReturn V`: when `V = PromiseLike<W>` that is
`MaybePromise<W>` (an awaitable of `W`, a synchronously returned `W` also
accepted), and when `V` is not an awaitable it is `V` unchanged — not
wrapped in an awaitable. -/
theorem rpcServer_return_normalization (T : Interface) (k k' : Key)
    (params : List Ty) (v : Ty)
    (hmem : (k, Ty.func params v) ∈ T) (hk : EnsurePrefix "$" k = some k') :
    (k', Ty.func (Ty.rpcContext :: WithoutCancellationToken params)
        (rpcReturn v)) ∈ RpcServer T
    ∧ (∀ w, rpcReturn (Ty.promiseLike w) = MaybePromise w)
    ∧ (v.isPromiseLike = false → rpcReturn v = v) := by
  refine ⟨mem_rpcServer_of_mem hmem hk, fun w => rfl, fun hv => ?_⟩
  cases v
  all_goals first | rfl | simp [Ty.isPromiseLike] at hv

/-- Witness for `rpcServer_return_normalization` at the interface
`{ m(): PromiseLike<number> }`. -/
theorem rpcServer_return_normalization_witness :
    ((Key.str "m", Ty.func [] (Ty.promiseLike Ty.num)) ∈
      ([(Key.str "m", Ty.func [] (Ty.promiseLike Ty.num))] : Interface))
    ∧ ( EnsurePrefix "$" (Key.str "m") = some (Key.str "$m"))
    ∧ (Key.str "$m",
        Ty.func (Ty.rpcContext :: WithoutCancellationToken [])
          (rpcReturn (Ty.promiseLike Ty.num))) ∈
        RpcServer [(Key.str "m", Ty.func [] (Ty.promiseLike Ty.num))] :=
  ⟨List.mem_singleton.mpr rfl, by decide,
   (rpcServer_return_normalization _ _ _ _ _
     (List.mem_singleton.mpr rfl) (by decide)).1⟩

/-- C2 counterexample: for `{ onFoo: Event<number> }` the event member does
NOT keep its name — the server shape's only member is named `$onFoo`
(prefix added), typed `RpcEvent<number>`; so this member both starts with
the reserved prefix and is an Event Broadcast Primitive member,
contradicting both "name unchanged" and "no member is both". -/
theorem rpcServer_event_renamed_cex :
    RpcServer [(Key.str "onFoo", Ty.event Ty.num)] =
      [(Key.str "$onFoo", Ty.rpcEvent Ty.num)]
    ∧ Key.str "$onFoo" ≠ Key.str "onFoo"
    ∧ strStartsWith "$" "$onFoo" = true
    ∧ rpcServerMemberTy (Ty.event Ty.num) = Ty.rpcEvent Ty.num :=
  ⟨rfl, by decide, by decide, rfl⟩

/-- C2 (amended): an event-typed member is mapped to the Event Broadcast
Primitive type `RpcEvent<U>`, but under the `EnsurePrefix`-renamed key like
every other member; consequently every member of the transformed server
shape has a `$`-prefixed string name (event members are both prefixed and
event-typed; symbol-keyed members are dropped). -/
theorem rpcServer_event_member_shape (T : Interface) (k k' : Key) (u : Ty)
    (hmem : (k, Ty.event u) ∈ T) (hk : EnsurePrefix "$" k = some k') :
    (k', Ty.rpcEvent u) ∈ RpcServer T
    ∧ ∀ p, p ∈ RpcServer T →
        ∃ s, p.1 = Key.str s ∧ strStartsWith "$" s = true := by
  refine ⟨mem_rpcServer_of_mem hmem hk, fun p hp => ?_⟩
  unfold RpcServer at hp
  rcases List.mem_filterMap.mp hp with ⟨a, _, hfa⟩
  rcases Option.map_eq_some'.mp hfa with ⟨k1, hk1, hp1⟩
  rcases ensurePrefix_shape hk1 with ⟨s, rfl, hs⟩
  exact ⟨s, by rw [← hp1], hs⟩

/-- Witness for `rpcServer_event_member_shape` at `{ onFoo: Event<number> }`. -/
theorem rpcServer_event_member_shape_witness :
    ((Key.str "onFoo", Ty.event Ty.num) ∈
      ([(Key.str "onFoo", Ty.event Ty.num)] : Interface))
    ∧ ( EnsurePrefix "$" (Key.str "onFoo") = some (Key.str "$onFoo"))
    ∧ (Key.str "$onFoo", Ty.rpcEvent Ty.num) ∈
        RpcServer [(Key.str "onFoo", Ty.event Ty.num)] :=
  ⟨List.mem_singleton.mpr rfl, by decide,
   (rpcServer_event_member_shape _ _ _ _
     (List.mem_singleton.mpr rfl) (by decide)).1⟩

/-- C3 counterexample: for `{ x: number }` — a member that is neither a
function nor an event stream — the server shape is NOT empty: it contains
the member `$x`, mapped to the degenerate type `undefined`, contradicting
"absent from the server shape, not merely mapped to a degenerate type". -/
theorem rpcServer_plain_member_present_cex :
    RpcServer [(Key.str "x", Ty.num)] = [(Key.str "$x", Ty.undef)]
    ∧ (RpcServer [(Key.str "x", Ty.num)]).length = 1 :=
  ⟨rfl, rfl⟩

/-- C3 (amended): a string-keyed member that is neither function- nor
event-typed is not absent from the server shape; it is present under the
`EnsurePrefix`-renamed key, mapped to the degenerate type `undefined`
(only symbol-keyed members, whose key maps to `never`, are dropped). -/
theorem rpcServer_other_member_undef (T : Interface) (k k' : Key) (t : Ty)
    (hmem : (k, t) ∈ T) (hk : EnsurePrefix "$" k = some k')
    (hev : t.isEventTy = false) (hfn : t.isFuncTy = false) :
    (k', Ty.undef) ∈ RpcServer T := by
  have h := mem_rpcServer_of_mem hmem hk
  have ht : rpcServerMemberTy t = Ty.undef := by
    cases t
    case event u => exact absurd hev (by simp [Ty.isEventTy])
    case func ps r => exact absurd hfn (by simp [Ty.isFuncTy])
    all_goals rfl
  rwa [ht] at h

/-- Witness for `rpcServer_other_member_undef` at `{ x: number }`. -/
theorem rpcServer_other_member_undef_witness :
    ((Key.str "x", Ty.num) ∈ ([(Key.str "x", Ty.num)] : Interface))
    ∧ ( EnsurePrefix "$" (Key.str "x") = some (Key.str "$x"))
    ∧ Ty.num.isEventTy = false
    ∧ Ty.num.isFuncTy = false
    ∧ (Key.str "$x", Ty.undef) ∈ RpcServer [(Key.str "x", Ty.num)] :=
  ⟨List.mem_singleton.mpr rfl, by decide, rfl, rfl,
   rpcServer_other_member_undef _ _ _ _
     (List.mem_singleton.mpr rfl) (by decide) rfl rfl⟩

/-- C4: a function-typed member named `s` maps to a server member named `s`
itself when `s` already starts with the reserved prefix `$`, and `"$" ++ s`
otherwise; in both cases the server member's first parameter is the
injected `RpcContext`. -/
theorem rpcServer_function_member_name (T : Interface) (s : String)
    (params : List Ty) (ret : Ty)
    (hmem : (Key.str s, Ty.func params ret) ∈ T) :
    (strStartsWith "$" s = true →
      (Key.str s,
        Ty.func (Ty.rpcContext :: WithoutCancellationToken params)
          (rpcReturn ret)) ∈ RpcServer T)
    ∧ (strStartsWith "$" s = false →
      (Key.str ("$" ++ s),
        Ty.func (Ty.rpcContext :: WithoutCancellationToken params)
          (rpcReturn ret)) ∈ RpcServer T) := by
  constructor
  · intro hs
    exact mem_rpcServer_of_mem hmem (by simp [ EnsurePrefix, hs])
  · intro hs
    exact mem_rpcServer_of_mem hmem (by simp [ EnsurePrefix, hs])

/-- Witness for `rpcServer_function_member_name`, one interface per branch:
`{ $bar(a: string): void }` (already prefixed) and `{ baz(): void }`. -/
theorem rpcServer_function_member_name_witness :
    ((Key.str "$bar", Ty.func [Ty.str] Ty.voidTy) ∈
      ([(Key.str "$bar", Ty.func [Ty.str] Ty.voidTy)] : Interface))
    ∧ (Key.str "$bar",
        Ty.func (Ty.rpcContext :: WithoutCancellationToken [Ty.str])
          (rpcReturn Ty.voidTy)) ∈
        RpcServer [(Key.str "$bar", Ty.func [Ty.str] Ty.voidTy)]
    ∧ ((Key.str "baz", Ty.func [] Ty.voidTy) ∈
        ([(Key.str "baz", Ty.func [] Ty.voidTy)] : Interface))
    ∧ (Key.str ("$" ++ "baz"),
        Ty.func (Ty.rpcContext :: WithoutCancellationToken [])
          (rpcReturn Ty.voidTy)) ∈
        RpcServer [(Key.str "baz", Ty.func [] Ty.voidTy)] :=
  ⟨List.mem_singleton.mpr rfl,
   (rpcServer_function_member_name _ _ _ _
     (List.mem_singleton.mpr rfl)).1 (by decide),
   List.mem_singleton.mpr rfl,
   (rpcServer_function_member_name _ _ _ _
     (List.mem_singleton.mpr rfl)).2 (by decide)⟩

/-- C5: the server member's parameter list is the injected context followed
exactly by the original parameters with a trailing `CancellationToken`
removed when one is present, and by the untouched original parameters
otherwise — nothing else is dropped, reordered or changed. -/
theorem rpcServer_param_list (T : Interface) (k k' : Key)
    (params : List Ty) (ret : Ty)
    (hmem : (k, Ty.func params ret) ∈ T) (hk : EnsurePrefix "$" k = some k') :
    (params.getLast? = some Ty.cancellationToken →
      (k', Ty.func (Ty.rpcContext :: params.dropLast)
        (rpcReturn ret)) ∈ RpcServer T)
    ∧ (params.getLast? ≠ some Ty.cancellationToken →
      (k', Ty.func (Ty.rpcContext :: params)
        (rpcReturn ret)) ∈ RpcServer T) := by
  have h : (k', Ty.func (Ty.rpcContext :: WithoutCancellationToken params)
      (rpcReturn ret)) ∈ RpcServer T := mem_rpcServer_of_mem hmem hk
  constructor
  · intro hlast
    rwa [wct_dropLast_of_trailing params hlast] at h
  · intro hlast
    rwa [wct_id_of_no_trailing params hlast] at h

/-- Witness for `rpcServer_param_list` at
`{ m(a: string, token: CancellationToken): void }`. -/
theorem rpcServer_param_list_witness :
    ((Key.str "m", Ty.func [Ty.str, Ty.cancellationToken] Ty.voidTy) ∈
      ([(Key.str "m", Ty.func [Ty.str, Ty.cancellationToken] Ty.voidTy)] :
        Interface))
    ∧ ( EnsurePrefix "$" (Key.str "m") = some (Key.str "$m"))
    ∧ (Key.str "$m",
        Ty.func (Ty.rpcContext ::
            ([Ty.str, Ty.cancellationToken] : List Ty).dropLast)
          (rpcReturn Ty.voidTy)) ∈
        RpcServer [(Key.str "m",
          Ty.func [Ty.str, Ty.cancellationToken] Ty.voidTy)] :=
  ⟨List.mem_singleton.mpr rfl, by decide,
   (rpcServer_param_list _ _ _ _ _
     (List.mem_singleton.mpr rfl) (by decide)).1 rfl⟩

/-! ## Claim theorems: runtime primitives -/

/-- C6: `RpcEvent.is` returns true exactly on objects whose `kOnSendAll`,
`kOnSendTo`, `sendAll` and `sendTo` properties are all functions; in
particular it is false on `{}`, on `null`, on a plain function, and on an
object with only three of the four members, and true on an object with all
four. -/
theorem rpcEvent_is_characterization :
    (∀ v : JSValue, RpcEvent.is v = true ↔
      ∃ props, v = JSValue.object props
        ∧ isFunction (lookupProp props kOnSendAll) = true
        ∧ isFunction (lookupProp props kOnSendTo) = true
        ∧ isFunction (lookupProp props (Key.str "sendAll")) = true
        ∧ isFunction (lookupProp props (Key.str "sendTo")) = true)
    ∧ RpcEvent.is (JSValue.object []) = false
    ∧ RpcEvent.is JSValue.null = false
    ∧ RpcEvent.is (JSValue.function 0) = false
    ∧ RpcEvent.is (JSValue.object
        [(kOnSendAll, JSValue.function 0), (kOnSendTo, JSValue.function 1),
         (Key.str "sendAll", JSValue.function 2)]) = false
    ∧ RpcEvent.is (JSValue.object
        [(kOnSendAll, JSValue.function 0), (kOnSendTo, JSValue.function 1),
         (Key.str "sendAll", JSValue.function 2),
         (Key.str "sendTo", JSValue.function 3)]) = true := by
  refine ⟨fun v => ?_, rfl, rfl, rfl, by decide, by decide⟩
  cases v
  all_goals
    simp [RpcEvent.is, isObject, isFunction, JSValue.getProp,
      Bool.and_eq_true, and_assoc]

/-- C7: when no value was populated for key `k` in the context, `get`
returns `none` (it is a total function into an option — it never throws)
and `require` fails with a `MissingContextValue` error carrying — naming —
the missing key `k`. -/
theorem rpcContext_get_require_absent (ctx : RpcContextModel) (k : Key)
    (habs : k ∉ ctx.values.map Prod.fst) :
    ctx.get k = none
    ∧ ctx.require k =
        Except.error (RpcError.missingContextValue k) := by
  have hget : ctx.get k = none := ctxLookup_eq_none ctx.values k habs
  refine ⟨hget, ?_⟩
  unfold RpcContextModel.require
  rw [hget]

/-- Witness for `rpcContext_get_require_absent` on an empty context. -/
theorem rpcContext_get_require_absent_witness :
    (Key.str "conn" ∉
      ((RpcContextModel.mk JSValue.null none []).values.map Prod.fst))
    ∧ ((RpcContextModel.mk JSValue.null none []).get (Key.str "conn") = none
       ∧ (RpcContextModel.mk JSValue.null none []).require (Key.str "conn") =
           Except.error (RpcError.missingContextValue (Key.str "conn"))) :=
  ⟨by simp, rpcContext_get_require_absent _ _ (by simp)⟩

/-- C8: a single `sendAll(event, exceptions?)` invocation raises exactly one
`onSendAll` notification carrying `{value: event, exceptions}`: the
returned state's `onSendAll` log — everything in it was raised before the
call returned — is the previous log extended by exactly that one
notification, and the `onSendTo` channel is untouched; symmetrically, one
`sendTo(event, targets)` invocation appends exactly one `onSendTo`
notification carrying `{value: event, targets}`. -/
theorem rpcEvent_send_notifications (T : Type) (e : RpcEventModel T) (ev : T)
    (exc : Option (List JSValue)) (tg : List JSValue) :
    ((e.sendAll ev exc).onSendAllLog = e.onSendAllLog ++ [⟨ev, exc⟩]
     ∧ (e.sendAll ev exc).onSendToLog = e.onSendToLog)
    ∧ ((e.sendTo ev tg).onSendToLog = e.onSendToLog ++ [⟨ev, tg⟩]
       ∧ (e.sendTo ev tg).onSendAllLog = e.onSendAllLog) :=
  ⟨⟨rfl, rfl⟩, rfl, rfl⟩

/-- C9: `RpcContextKey` is a pure constructor and the identity at runtime —
the returned key is the identifier itself, no runtime tag is stored — so
two invocations yield equal keys exactly when the raw identifiers are equal
(string equality or symbol identity). -/
theorem rpcContextKey_pure_identity :
    (∀ k : Key, RpcContextKey k = k)
    ∧ (∀ k1 k2 : Key, RpcContextKey k1 = RpcContextKey k2 ↔ k1 = k2) :=
  ⟨fun _ => rfl, fun _ _ => Iff.rfl⟩

/-- C10: the two observation-channel keys come from the global symbol
registry (`Symbol.for('onSendAll')` / `Symbol.for('onSendTo')`), so any
independently evaluated `Symbol.for` with the same label yields a key equal
to them — and no unique (module-private) symbol can ever equal them, so the
channels are nameable by any code in the process. -/
theorem kOnSend_channels_registered :
    kOnSendAll = Key.sym (symbolFor "onSendAll")
    ∧ kOnSendTo = Key.sym (symbolFor "onSendTo")
    ∧ (∀ s : String, Key.sym (symbolFor s) = kOnSendAll ↔ s = "onSendAll")
    ∧ (∀ s : String, Key.sym (symbolFor s) = kOnSendTo ↔ s = "onSendTo")
    ∧ (∀ (i : Nat) (d : String), Key.sym (JSSymbol.unique i d) ≠ kOnSendAll)
    ∧ (∀ (i : Nat) (d : String), Key.sym (JSSymbol.unique i d) ≠ kOnSendTo) := by
  refine ⟨rfl, rfl, fun s => ?_, fun s => ?_,
    fun i d h => ?_, fun i d h => ?_⟩
  · simp [kOnSendAll, symbolFor]
  · simp [kOnSendTo, symbolFor]
  · simp [kOnSendAll, symbolFor] at h
  · simp [kOnSendTo, symbolFor] at h
